import Mathlib

/-!
Verification of the GatEX request-validation and route-composition core.

The development shallowly embeds the TypeScript core:
* `requestSchemaRun` embeds the `RequestSchema` middleware (src/RequestSchema):
  conversion of a bare schema to a per-surface map, the fixed body/query/
  params/headers validation loop, surface replacement on success, and the
  `ValidationSchemeError` raised on the first failure.
* `vseHandler` and `wrapSchemeErrorHandler` embed `ValidationSchemeError.handler`
  and the `schemeErrorHandler` setter of `GroupingProvider`.
* `posixJoin` embeds Node's `path.posix.join` (used by
  `GroupingProvider.normalizeRoute`).
* `registerRoute`, `equalizeHandlers`, `handleRequest`, `repositoryCalls`
  embed the registration half of `GroupingProvider`.
* `MwHeap`/`groupChild` embed `parseGroupArgs`/`group` at the level of mutable
  middleware arrays, to state frame properties about aliasing.

The validator (Zod) is opaque to the core and is modelled as an abstract
`safeParse` function; surface values are an abstract type `V` with a
distinguished `vempty : V` standing for the empty object `{}` used by the
`?? {}` defaults.
-/

namespace GatEX

/-- Keys of a validation issue path: Zod paths hold string keys and numeric
array indices. -/
inductive PathKey where
  | str (s : String)
  | num (n : Nat)
  deriving DecidableEq

/-- Validation Issue: the two issue fields the core reads are the path into
the offending data and the human-readable message. -/
structure Issue where
  path : List PathKey
  message : String
  deriving DecidableEq

/-- Result of the opaque validator's `safeParse`: normalized data on success,
or a list of issues on failure. -/
inductive ParseResult (V : Type) where
  | success (data : V)
  | failure (issues : List Issue)

/-- Opaque validator handle (a `ZodSchema`): only its `safeParse` behaviour is
visible to the core. -/
structure Schema (V : Type) where
  safeParse : V → ParseResult V

/-- Per-surface map form of `RequestSchemaType`: up to four optional schemas
keyed by surface. -/
structure SchemaMap (V : Type) where
  body : Option (Schema V)
  query : Option (Schema V)
  params : Option (Schema V)
  headers : Option (Schema V)

/-- `RequestSchemaType`: either a single schema or a per-surface map. -/
inductive SchemaSpec (V : Type) where
  | single (s : Schema V)
  | map (m : SchemaMap V)

/-- The four request surfaces. -/
inductive Surface where
  | body
  | query
  | params
  | headers
  deriving DecidableEq

/-- Surface name as the string the middleware prepends to issue paths. -/
def Surface.name : Surface → String
  | .body => "body"
  | .query => "query"
  | .params => "params"
  | .headers => "headers"

/-- Position of a surface in the fixed validation order body, query, params,
headers. -/
def Surface.idx : Surface → Nat
  | .body => 0
  | .query => 1
  | .params => 2
  | .headers => 3

/-- Schema bound to a given surface in a map. -/
def SchemaMap.get {V : Type} (m : SchemaMap V) : Surface → Option (Schema V)
  | .body => m.body
  | .query => m.query
  | .params => m.params
  | .headers => m.headers

/-- Express request restricted to what the middleware reads: the HTTP method
and the four surfaces, each possibly absent (undefined). -/
structure Req (V : Type) where
  method : String
  body : Option V
  query : Option V
  params : Option V
  headers : Option V

/-- Current value of one surface of a request. -/
def Req.getSurface {V : Type} (r : Req V) : Surface → Option V
  | .body => r.body
  | .query => r.query
  | .params => r.params
  | .headers => r.headers

/-- Replacement of one surface of a request, as done by
`Object.defineProperty(req, key, { value: result.data, ... })`. -/
def Req.setSurface {V : Type} (r : Req V) (k : Surface) (v : V) : Req V :=
  match k with
  | .body => { r with body := some v }
  | .query => { r with query := some v }
  | .params => { r with params := some v }
  | .headers => { r with headers := some v }

/-- Snapshot of the four surfaces stored on a `ValidationSchemeError`:
body/query/params defaulted to the empty object when absent, headers taken
as-is (`req.headers` with no default). -/
structure Snapshot (V : Type) where
  body : V
  query : V
  params : V
  headers : Option V
  deriving DecidableEq

/-- Snapshot of the surfaces of a request, with `?? {}` defaults for
body/query/params. -/
def Snapshot.ofReq {V : Type} (vempty : V) (r : Req V) : Snapshot V :=
  ⟨r.body.getD vempty, r.query.getD vempty, r.params.getD vempty, r.headers⟩

/-- `ValidationSchemeError`: the constructor stores the message, the schema
that was active for the failing surface, the path-qualified issues and the
request snapshot. -/
structure VSE (V : Type) where
  message : String
  schema : Schema V
  issues : List Issue
  request : Snapshot V

/-- Outcome of the `RequestSchema` middleware on one request: `next()` with
the (possibly mutated) request, or `next(err)` with a
`ValidationSchemeError`. -/
inductive StepResult (V : Type) where
  | ok (req : Req V)
  | err (e : VSE V)

/-- Methods for which a bare schema targets the body surface
(`["POST", "PUT", "PATCH"].includes(req.method)`). -/
def mutatingMethods : List String := ["POST", "PUT", "PATCH"]

/-- Conversion of a `RequestSchemaType` into the per-surface map: a bare
schema is bound to `body` for POST/PUT/PATCH and to `query` otherwise; a map
is kept as-is. -/
def effectiveMap {V : Type} (spec : SchemaSpec V) (method : String) :
    SchemaMap V :=
  match spec with
  | .single s =>
      if method ∈ mutatingMethods then ⟨some s, none, none, none⟩
      else ⟨none, some s, none, none⟩
  | .map m => m

/-- Validation loop of `RequestSchema` over the prepared validations list:
surfaces with no bound schema are skipped (`if (!schema) continue`); the
first failing surface raises a `ValidationSchemeError` whose issues get the
surface name prepended (`issue.path.unshift(key)`) and whose snapshot reads
the surfaces as they currently stand on the request; a successful surface is
replaced by the normalized data before the loop continues. -/
def runValidations {V : Type} (vempty : V) :
    List (Surface × V × Option (Schema V)) → Req V → StepResult V
  | [], r => .ok r
  | (_, _, none) :: rest, r => runValidations vempty rest r
  | (k, src, some s) :: rest, r =>
    match s.safeParse src with
    | .failure iss =>
        .err ⟨"Validation Error", s,
          iss.map (fun i => ⟨PathKey.str k.name :: i.path, i.message⟩),
          Snapshot.ofReq vempty r⟩
    | .success d => runValidations vempty rest (r.setSurface k d)

/-- The `RequestSchema` middleware body: converts the spec, builds the
validations list (sources captured from the incoming request with `?? {}`
defaults) and runs the loop. -/
def requestSchemaRun {V : Type} (vempty : V) (spec : SchemaSpec V)
    (req : Req V) : StepResult V :=
  let m := effectiveMap spec req.method
  runValidations vempty
    [ (Surface.body, req.body.getD vempty, m.body),
      (Surface.query, req.query.getD vempty, m.query),
      (Surface.params, req.params.getD vempty, m.params),
      (Surface.headers, req.headers.getD vempty, m.headers) ]
    req

/-- Relation between the schema bound to a surface, the surface's incoming
value, and its value after the Schema Normalizer ran: unbound surfaces are
unchanged, bound surfaces validate successfully and hold the normalized
data. -/
def SurfaceOk {V : Type} (vempty : V) (os : Option (Schema V))
    (raw outVal : Option V) : Prop :=
  match os with
  | none => outVal = raw
  | some s => ∃ d, s.safeParse (raw.getD vempty) = .success d ∧ outVal = some d

/-- Request surfaces as they stand at the moment surface `S` fails: surfaces
strictly before `S` in the validation order that carry a bound schema have
been replaced by the validator's normalized output `norm`, all other surfaces
are untouched. Spec-side description used to state the amended C2. -/
def normalizedBefore {V : Type} (req : Req V) (m : SchemaMap V) (S : Surface)
    (norm : Surface → V) : Req V :=
  { method := req.method
    body := if Surface.idx .body < S.idx ∧ m.body.isSome = true
      then some (norm .body) else req.body
    query := if Surface.idx .query < S.idx ∧ m.query.isSome = true
      then some (norm .query) else req.query
    params := if Surface.idx .params < S.idx ∧ m.params.isSome = true
      then some (norm .params) else req.params
    headers := if Surface.idx .headers < S.idx ∧ m.headers.isSome = true
      then some (norm .headers) else req.headers }

/-- Per-issue entry of the wire-level error body: the dotted path and the
message. -/
structure IssueOut where
  «attribute» : String
  error : String
  deriving DecidableEq

/-- Rendering of one path key as `Array.prototype.join` stringifies it. -/
def PathKey.render : PathKey → String
  | .str s => s
  | .num n => toString n

/-- Issue path joined with `"."` (`issue.path.join(".")`). -/
def joinDot (p : List PathKey) : String :=
  String.intercalate "." (p.map PathKey.render)

/-- Content part of the wire-level error body. -/
structure RespContent (V : Type) where
  message : String
  request : Snapshot V
  schemaIssues : List IssueOut

/-- Wire-level error body `{ error, content }`. -/
structure RespBody (V : Type) where
  error : Bool
  content : RespContent V

/-- Errors reaching the error-handling stage: a `ValidationSchemeError`
(recognized by type via `instanceof`) or any other error, kept opaque. -/
inductive ErrT (V : Type) where
  | vse (e : VSE V)
  | other (tag : Nat)

/-- Action taken by an error-handling middleware: respond with a status and a
body (`res.status(400).json(response)`), or forward the error to the next
stage (`next(err)`). -/
inductive HandlerAction (V : Type) where
  | respond (status : Nat) (body : RespBody V)
  | next (e : ErrT V)

/-- `ValidationSchemeError.handler`: a `ValidationSchemeError` is answered
with status 400 and the fixed body shape; any other error is passed to
`next` unchanged. -/
def vseHandler {V : Type} : ErrT V → HandlerAction V := fun err =>
  match err with
  | .vse e =>
      .respond 400
        ⟨true, ⟨e.message, e.request,
          e.issues.map (fun i => ⟨joinDot i.path, i.message⟩)⟩⟩
  | .other _ => .next err

/-- The `schemeErrorHandler` setter of `GroupingProvider`: wraps the
caller-supplied handler so that it only sees `ValidationSchemeError`s, while
every other error is forwarded unchanged. -/
def wrapSchemeErrorHandler {V : Type} (handler : VSE V → HandlerAction V) :
    ErrT V → HandlerAction V := fun err =>
  match err with
  | .vse e => handler e
  | .other _ => .next err

/-! Node `path.posix.join`, used by `GroupingProvider.normalizeRoute`.
Implemented over `String.data` so every step is plain structural recursion
the kernel can evaluate. -/

/-- Splitting a character list on `/`, keeping empty segments. -/
def splitCharsOnSlash : List Char → List (List Char)
  | [] => [[]]
  | c :: rest =>
    let r := splitCharsOnSlash rest
    if c = '/' then [] :: r
    else
      match r with
      | [] => [[c]]
      | g :: gs => (c :: g) :: gs

/-- Segments of a path string split on `/` (empty segments included). -/
def splitSegsOnSlash (p : String) : List String :=
  (splitCharsOnSlash p.data).map String.mk

/-- Whether the path starts with a separator. -/
def startsWithSlash (p : String) : Bool :=
  match p.data with
  | [] => false
  | c :: _ => c = '/'

/-- Whether the path ends with a separator. -/
def endsWithSlash (p : String) : Bool :=
  match p.data.getLast? with
  | some c => c = '/'
  | none => false

/-- Segments interleaved with a separator. -/
def joinSegs (sep : String) : List String → String
  | [] => ""
  | [s] => s
  | s :: rest => s ++ sep ++ joinSegs sep rest

/-- One step of Node's `normalizeString` segment resolution: empty and `.`
segments are dropped, `..` pops the previous segment (or accumulates above
the root when the path is relative), anything else is kept. -/
def resolveStep (allowAbove : Bool) (acc : List String) (s : String) :
    List String :=
  if s = "" ∨ s = "." then acc
  else if s = ".." then
    match acc.getLast? with
    | some t => if t = ".." then acc ++ [".."] else acc.dropLast
    | none => if allowAbove then [".."] else []
  else acc ++ [s]

/-- Node's `path.posix.normalize`: resolves `.`/`..`, collapses repeated
separators, preserves a leading separator (absolute path) and a trailing
separator. -/
def posixNormalize (p : String) : String :=
  if p = "" then "."
  else
    let isAbs := startsWithSlash p
    let trailing := endsWithSlash p
    let res := (splitSegsOnSlash p).foldl (resolveStep (!isAbs)) []
    let core := joinSegs "/" res
    if core = "" then
      if isAbs then "/" else if trailing then "./" else "."
    else
      (if isAbs then "/" else "") ++ core ++ (if trailing then "/" else "")

/-- Node's `path.posix.join`: non-empty arguments joined with `/` and
normalized; `"."` when nothing remains. -/
def posixJoin (ps : List String) : String :=
  match ps.filter (fun s => s != "") with
  | [] => "."
  | l => posixNormalize (joinSegs "/" l)

/-- `GroupingProvider.normalizeRoute`: `path.posix.join(...paths)`. -/
def normalizeRoute (paths : List String) : String := posixJoin paths

/-! Route registration (`GroupingProvider.registerRoute` and helpers). -/

/-- The five verb methods of `GroupingProvider`. -/
inductive Verb where
  | get
  | post
  | put
  | patch
  | delete
  deriving DecidableEq

/-- One entry of a `HandlersList`: the structural `typeof handler ===
"function"` probe of the source is modelled as a tagged variant — a schema
specification or an invocable handler. -/
inductive RouteEntry (V H : Type) where
  | schema (s : SchemaSpec V)
  | handler (h : H)

/-- A handler as mounted on the Express router: a group middleware is mounted
as-is (`...this.middlewares`), a function entry of the handler list is
mounted wrapped by `handleRequest`, and a schema entry is mounted as the
`RequestSchema(handler)` middleware. -/
inductive Mounted (V H : Type) where
  | plain (h : H)
  | wrapped (h : H)
  | schemaMw (s : SchemaSpec V)

/-- Observable outcome of executing one handler on one request: it finishes,
calls `next()`, calls `next(e)`, or raises `e` (a synchronous throw or an
asynchronous rejection — `await` surfaces both as an exception). -/
inductive HandlerOut (E : Type) where
  | done
  | nextOk
  | nextErr (e : E)
  | raise (e : E)
  deriving DecidableEq

/-- `GroupingProvider.handleRequest`: runs the handler under
`try { await ... } catch (error) { next(error) }`, so a raised error becomes
a `next(error)` call. -/
def handleRequest {R E : Type} (requestHandler : R → HandlerOut E) (r : R) :
    HandlerOut E :=
  match requestHandler r with
  | .raise e => .nextErr e
  | o => o

/-- `GroupingProvider.equalizeHandlers`: function entries are wrapped with
`handleRequest`, non-function entries become a `RequestSchema` middleware. -/
def equalizeHandlers {V H : Type} (requestHandlers : List (RouteEntry V H)) :
    List (Mounted V H) :=
  requestHandlers.map fun h =>
    match h with
    | .schema s => .schemaMw s
    | .handler f => .wrapped f

/-- One route registered on the Express router: verb, final path, and the
mounted middleware chain. -/
structure Registration (V H : Type) where
  verb : Verb
  path : String
  chain : List (Mounted V H)

/-- State of a `GroupingProvider` relevant to registration: the base path
(`head`), the inherited middleware chain, and the routes accumulated on the
underlying router. -/
structure GroupSt (V H : Type) where
  head : String
  middlewares : List H
  routes : List (Registration V H)

/-- `GroupingProvider.registerRoute`: for each given path, mounts
`router[method](normalizeRoute(head, path), ...middlewares,
...equalizeHandlers(handlers))`. -/
def registerRoute {V H : Type} (st : GroupSt V H) (verb : Verb)
    (path : List String) (handlers : List (RouteEntry V H)) : GroupSt V H :=
  let finalHandlers := equalizeHandlers handlers
  { st with
    routes := st.routes ++ path.map (fun singlePath =>
      ⟨verb, normalizeRoute [st.head, singlePath],
        st.middlewares.map Mounted.plain ++ finalHandlers⟩) }

/-! Repository route derivation (`GroupingProvider.repository`). -/

/-- The six conventional operation names. -/
inductive OpName where
  | create
  | list
  | get
  | update
  | patch
  | delete
  deriving DecidableEq

/-- Iteration order of the `methods` table (object literal insertion order). -/
def opOrder : List OpName :=
  [.create, .list, .get, .update, .patch, .delete]

/-- Verb of the fixed verb/path table. -/
def opVerb : OpName → Verb
  | .create => .post
  | .list => .get
  | .get => .get
  | .update => .put
  | .patch => .patch
  | .delete => .delete

/-- Path of the fixed verb/path table (`pathName` or
`pathName/:idParam`). -/
def opPath (pathName idParam : String) : OpName → String
  | .create => pathName
  | .list => pathName
  | .get => pathName ++ "/:" ++ idParam
  | .update => pathName ++ "/:" ++ idParam
  | .patch => pathName ++ "/:" ++ idParam
  | .delete => pathName ++ "/:" ++ idParam

/-- Method-level decorator metadata (`@Schema`, `@Middleware`), each entry
possibly absent. -/
structure MethodMeta (V H : Type) where
  schema : Option (SchemaSpec V)
  middleware : Option (List H)

/-- Class-level decorator metadata (`@PathName`, `@IdParam`). -/
structure ClassMeta where
  pathName : Option String
  idParam : Option String

/-- A repository instance: its class name and, for each of the six
conventional names, the callable member if the instance exposes one
(`typeof fn !== "function"` skips the rest). The bound method
`fn.bind(repository)` is modelled by the member's handler value, which
already closes over the instance. -/
structure RepoInstance (V H : Type) where
  className : String
  create : Option H
  list : Option H
  get : Option H
  update : Option H
  patch : Option H
  delete : Option H

/-- Member of a repository instance under one of the six names. -/
def RepoInstance.method {V H : Type} (repo : RepoInstance V H) :
    OpName → Option H
  | .create => repo.create
  | .list => repo.list
  | .get => repo.get
  | .update => repo.update
  | .patch => repo.patch
  | .delete => repo.delete

/-- `repository.constructor.name.replace(/Repository$/, "")`: the class name
with one trailing `"Repository"` removed when present. -/
def stripRepositorySuffix (name : String) : String :=
  if ("Repository".data).isSuffixOf name.data then
    String.mk (name.data.take (name.data.length - ("Repository".data).length))
  else name

/-- One delegation `this[verb](path, ...args)` performed by
`GroupingProvider.repository`. -/
structure RepoCall (V H : Type) where
  verb : Verb
  path : String
  args : List (RouteEntry V H)

/-- `GroupingProvider.repository`, up to the delegation to the verb methods:
resolves the base path (`path ?? classMeta.pathName ?? <stripped class
name>`) and the id parameter (`classMeta.idParam ?? "id"`), walks the fixed
table in order, skips names the instance does not expose as callable, and
assembles `[meta.schema, ...(meta.middleware || []), fn.bind(repository)]
.filter(Boolean)` for the rest. -/
def repositoryCalls {V H : Type} (repo : RepoInstance V H) (classMeta : ClassMeta)
    (methodMeta : OpName → MethodMeta V H) (pathArg : Option String) :
    List (RepoCall V H) :=
  let pathName :=
    pathArg.getD (classMeta.pathName.getD (stripRepositorySuffix repo.className))
  let idParam := classMeta.idParam.getD "id"
  opOrder.filterMap fun op =>
    match repo.method op with
    | none => none
    | some fn =>
      let meta := methodMeta op
      let args :=
        (match meta.schema with
         | some s => [RouteEntry.schema s]
         | none => [])
        ++ (meta.middleware.getD []).map RouteEntry.handler
        ++ [RouteEntry.handler fn]
      some ⟨opVerb op, opPath pathName idParam op, args⟩

/-- `GroupingProvider.repository` end to end: every delegated call goes
through the matching verb method, i.e. through `registerRoute` with a single
path. -/
def repositoryRegister {V H : Type} (st : GroupSt V H) (repo : RepoInstance V H)
    (classMeta : ClassMeta) (methodMeta : OpName → MethodMeta V H)
    (pathArg : Option String) : GroupSt V H :=
  (repositoryCalls repo classMeta methodMeta pathArg).foldl
    (fun s c => registerRoute s c.verb [c.path] c.args) st

/-! Heap model of the middleware arrays, for the frame properties of
`group`/`parseGroupArgs`: each provider holds a reference to a mutable array
of middlewares; `parseGroupArgs` copies the parent's array
(`[...this.middlewares]`) and pushes the optional extra middleware onto the
copy. -/

/-- Heap of middleware arrays: contents per reference, plus the next fresh
reference. -/
structure MwHeap (H : Type) where
  arr : Nat → List H
  next : Nat

/-- Contents of the array behind a reference. -/
def heapGet {H : Type} (h : MwHeap H) (r : Nat) : List H := h.arr r

/-- Allocation of a fresh array with the given contents. -/
def heapAlloc {H : Type} (h : MwHeap H) (l : List H) : MwHeap H × Nat :=
  (⟨fun r => if r = h.next then l else h.arr r, h.next + 1⟩, h.next)

/-- State of one `GroupingProvider` as seen by `group`: its path head and the
reference to its middleware array. -/
structure ProviderSt where
  head : String
  mwRef : Nat

/-- Argument shapes of `group(...)` (the callback itself acts only through
the child provider, so it is not part of the shape). -/
inductive GroupArgsV (H : Type) where
  | cb
  | pathCb (p : String)
  | mwCb (m : H)
  | pathMwCb (p : String) (m : H)

/-- Path component selected by `parseGroupArgs` (defaults to `""`). -/
def argsPath {H : Type} : GroupArgsV H → String
  | .pathCb p => p
  | .pathMwCb p _ => p
  | _ => ""

/-- Optional middleware selected by `parseGroupArgs`. -/
def argsMw {H : Type} : GroupArgsV H → Option H
  | .mwCb m => some m
  | .pathMwCb _ m => some m
  | _ => none

/-- `GroupingProvider.parseGroupArgs`: copies the parent's middleware array
into a fresh one and pushes the optional middleware onto the copy; returns
the selected path and the new reference. -/
def parseGroupArgs {H : Type} (h : MwHeap H) (st : ProviderSt)
    (args : GroupArgsV H) : MwHeap H × String × Nat :=
  let copied := heapGet h st.mwRef ++
    (match argsMw args with
     | some m => [m]
     | none => [])
  let alloc := heapAlloc h copied
  (alloc.1, (argsPath args, alloc.2))

/-- `GroupingProvider.group`: builds the child provider scoped to
`normalizeRoute(this.head, path)` and the freshly copied middleware array,
and hands it to the callback. -/
def groupChild {H : Type} (h : MwHeap H) (st : ProviderSt)
    (args : GroupArgsV H) : MwHeap H × ProviderSt :=
  let parsed := parseGroupArgs h st args
  (parsed.1, ⟨normalizeRoute [st.head, parsed.2.1], parsed.2.2⟩)

/-- One heap mutation the engine can perform: some provider with a valid
reference runs `group` (the only operation that touches middleware arrays). -/
def EngineStep {H : Type} (h1 h2 : MwHeap H) : Prop :=
  ∃ st args, st.mwRef < h1.next ∧ h2 = (groupChild h1 st args).1

/-- Reachability by a sequence of engine heap mutations (e.g. everything a
group callback does before returning). -/
inductive EngineReach {H : Type} : MwHeap H → MwHeap H → Prop where
  | refl (h : MwHeap H) : EngineReach h h
  | step {h1 h2 h3 : MwHeap H} :
      EngineStep h1 h2 → EngineReach h2 h3 → EngineReach h1 h3

/-! Concrete instances used by witnesses and counterexamples (surface values
are `Nat`, with `0` standing for the empty object). -/

/-- Example schema that accepts any value and normalizes it to its successor
(a coercing validator). -/
def exSchemaAddOne : Schema Nat := ⟨fun v => .success (v + 1)⟩

/-- Example schema that accepts any value and normalizes it by adding ten. -/
def exSchemaAddTen : Schema Nat := ⟨fun v => .success (v + 10)⟩

/-- Example schema that rejects every value with one issue at `q`. -/
def exSchemaFailQ : Schema Nat :=
  ⟨fun _ => .failure [⟨[PathKey.str "q"], "bad"⟩]⟩

/-- Example schema that rejects every value with one issue at `username`. -/
def exSchemaFailUser : Schema Nat :=
  ⟨fun _ => .failure [⟨[PathKey.str "username"], "Required"⟩]⟩

/-- Example spec binding the coercing schema to body and headers. -/
def c1spec : SchemaSpec Nat :=
  .map ⟨some exSchemaAddOne, none, none, some exSchemaAddOne⟩

/-- Example request for the C1 witness. -/
def c1req : Req Nat := ⟨"POST", some 3, none, some 7, some 9⟩

/-- Example map whose body schema coerces and whose query schema fails. -/
def c2m : SchemaMap Nat := ⟨some exSchemaAddTen, some exSchemaFailQ, none, none⟩

/-- Example request for the C2 counterexample. -/
def c2req : Req Nat := ⟨"POST", some 1, some 5, none, none⟩

/-- Example request for the C2 witness. -/
def c2wreq : Req Nat := ⟨"POST", some 2, some 5, none, none⟩

/-- Example map whose body schema fails outright. -/
def c9m : SchemaMap Nat := ⟨some exSchemaFailUser, none, none, none⟩

/-- Example request for the C9 theorems. -/
def c9req : Req Nat := ⟨"POST", some 5, none, none, none⟩

/-- Example handler that raises on every request. -/
def c5hf : Nat → HandlerOut Nat := fun _ => .raise 7

/-- Example empty heap with one allocated (empty) middleware array. -/
def exHeapU : MwHeap Unit := ⟨fun _ => [], 1⟩

/-- Example root provider over `exHeapU`. -/
def exRootU : ProviderSt := ⟨"/", 0⟩

/-- Example empty heap with `Nat` middlewares. -/
def exHeapN : MwHeap Nat := ⟨fun _ => [], 1⟩

/-- Example root provider over `exHeapN`. -/
def exRootN : ProviderSt := ⟨"/", 0⟩

/-! Theorems. -/

/-- C3: for a route registered with a single schema (not a per-surface map),
the Schema Normalizer applies that schema to the body surface when the
request method is one of POST, PUT, PATCH, and to the query surface for every
other method: the single form behaves exactly like the map binding only that
surface. -/
theorem singleSchema_surfaceTarget {V : Type} (vempty : V) (s : Schema V)
    (req : Req V) :
    effectiveMap (.single s) req.method =
      (if req.method = "POST" ∨ req.method = "PUT" ∨ req.method = "PATCH"
       then ⟨some s, none, none, none⟩
       else ⟨none, some s, none, none⟩) ∧
    requestSchemaRun vempty (.single s) req =
      requestSchemaRun vempty
        (.map (if req.method = "POST" ∨ req.method = "PUT" ∨ req.method = "PATCH"
          then ⟨some s, none, none, none⟩
          else ⟨none, some s, none, none⟩)) req := by
  have hiff : req.method ∈ mutatingMethods ↔
      (req.method = "POST" ∨ req.method = "PUT" ∨ req.method = "PATCH") := by
    simp [mutatingMethods]
  by_cases hc : req.method = "POST" ∨ req.method = "PUT" ∨ req.method = "PATCH"
  · have hmem := hiff.mpr hc
    constructor
    · simp [effectiveMap, hmem, hc]
    · simp [requestSchemaRun, effectiveMap, hmem, hc]
  · have hmem : ¬ req.method ∈ mutatingMethods := fun hx => hc (hiff.mp hx)
    constructor
    · simp [effectiveMap, hmem, hc]
    · simp [requestSchemaRun, effectiveMap, hmem, hc]

/-- C7: every Validation Failure is answered by the default Error Responder
with HTTP status 400 and a body of exactly the shape
`{ error: true, content: { message, request, schemaIssues } }`, where each
schemaIssues entry holds the issue's path segments joined with `"."` and the
issue's message. -/
theorem errorResponder_validationResponse {V : Type} (e : VSE V) :
    vseHandler (.vse e) =
      .respond 400
        ⟨true, ⟨e.message, e.request,
          e.issues.map (fun i =>
            ⟨String.intercalate "." (i.path.map PathKey.render), i.message⟩)⟩⟩ :=
  rfl

/-- C8: every error that is not a Validation Failure is forwarded unchanged
to the next error-handling stage, both by the default responder and by the
wrapper installed around any caller-supplied override, and the override is
invoked exactly on Validation Failures (the result on other errors does not
depend on the override at all). -/
theorem errorResponder_passthrough {V : Type} :
    (∀ t : Nat, vseHandler (ErrT.other t : ErrT V) = .next (.other t)) ∧
    (∀ (custom : VSE V → HandlerAction V) (t : Nat),
      wrapSchemeErrorHandler custom (.other t) = .next (.other t)) ∧
    (∀ (custom : VSE V → HandlerAction V) (e : VSE V),
      wrapSchemeErrorHandler custom (.vse e) = custom e) ∧
    (∀ (ca cb : VSE V → HandlerAction V) (t : Nat),
      wrapSchemeErrorHandler ca (.other t) = wrapSchemeErrorHandler cb (.other t)) :=
  ⟨fun _ => rfl, fun _ _ => rfl, fun _ _ => rfl, fun _ _ _ => rfl⟩

/-- C1: whenever every bound surface validates successfully, the Schema
Normalizer replaces each bound surface with the validator's normalized output,
leaves surfaces with no bound schema unchanged, and invokes the next step
with no error. -/
theorem requestSchema_allValid_normalizes {V : Type} (vempty : V)
    (spec : SchemaSpec V) (req : Req V) (m : SchemaMap V)
    (hm : effectiveMap spec req.method = m)
    (nb nq np nh : Option V)
    (hb : SurfaceOk vempty m.body req.body nb)
    (hq : SurfaceOk vempty m.query req.query nq)
    (hp : SurfaceOk vempty m.params req.params np)
    (hh : SurfaceOk vempty m.headers req.headers nh) :
    requestSchemaRun vempty spec req = .ok ⟨req.method, nb, nq, np, nh⟩ := by
  obtain ⟨mtd, b, q, pr, hd⟩ := req
  obtain ⟨ob, oq, opr, oh⟩ := m
  simp only at hm
  simp only [requestSchemaRun, hm]
  cases ob <;> cases oq <;> cases opr <;> cases oh
  all_goals
    simp only [SurfaceOk] at hb hq hp hh
    first
    | obtain ⟨db, hpb, rfl⟩ := hb
    | subst hb
    first
    | obtain ⟨dq, hpq, rfl⟩ := hq
    | subst hq
    first
    | obtain ⟨dp, hpp, rfl⟩ := hp
    | subst hp
    first
    | obtain ⟨dh, hph, rfl⟩ := hh
    | subst hh
    simp_all [runValidations, Req.setSurface]

/-- C1 witness: on a concrete POST request the normalizer replaces the bound
body and headers surfaces and keeps the unbound query and params surfaces. -/
theorem requestSchema_allValid_normalizes_witness :
    requestSchemaRun 0 c1spec c1req =
      .ok ⟨"POST", some 4, none, some 7, some 10⟩ :=
  requestSchema_allValid_normalizes 0 c1spec c1req
    ⟨some exSchemaAddOne, none, none, some exSchemaAddOne⟩ rfl
    (some 4) none (some 7) (some 10)
    ⟨4, rfl, rfl⟩ rfl rfl ⟨10, rfl, rfl⟩

/-- Helper: whenever surface `S` is the first (in the fixed order) whose
bound schema fails, the run raises the `ValidationSchemeError` built from the
fixed message, the failing surface's schema, the path-qualified issues and
the snapshot of the request as it stands at that moment — and this holds for
every schema map that agrees with `m` on the surfaces up to and including
`S`, i.e. the schemas bound to later surfaces are never evaluated. -/
theorem runValidations_firstFail {V : Type} (vempty : V) (m : SchemaMap V)
    (req : Req V) (S : Surface) (sS : Schema V) (iss : List Issue)
    (norm : Surface → V)
    (hbefore : ∀ T : Surface, T.idx < S.idx → ∀ s, m.get T = some s →
      s.safeParse ((req.getSurface T).getD vempty) = .success (norm T))
    (hS : m.get S = some sS)
    (hfail : sS.safeParse ((req.getSurface S).getD vempty) = .failure iss) :
    ∀ mm : SchemaMap V, (∀ T : Surface, T.idx ≤ S.idx → mm.get T = m.get T) →
      requestSchemaRun vempty (.map mm) req =
        .err ⟨"Validation Error", sS,
          iss.map (fun i => ⟨PathKey.str S.name :: i.path, i.message⟩),
          Snapshot.ofReq vempty (normalizedBefore req m S norm)⟩ := by
  intro mm hagree
  obtain ⟨mtd, b, q, pr, hd⟩ := req
  obtain ⟨ob, oq, opr, oh⟩ := m
  obtain ⟨ob2, oq2, opr2, oh2⟩ := mm
  cases S with
  | body =>
    have e1 : ob2 = ob := hagree .body (by decide)
    rw [e1]
    simp only [SchemaMap.get] at hS
    subst hS
    simp only [Req.getSurface] at hfail
    simp [requestSchemaRun, effectiveMap, runValidations, hfail,
      Snapshot.ofReq, normalizedBefore, Surface.idx, Surface.name]
  | query =>
    have e1 : ob2 = ob := hagree .body (by decide)
    have e2 : oq2 = oq := hagree .query (by decide)
    rw [e1, e2]
    have hB : ∀ s, ob = some s →
        s.safeParse (b.getD vempty) = .success (norm .body) :=
      fun s hs => hbefore .body (by decide) s hs
    simp only [SchemaMap.get] at hS
    subst hS
    simp only [Req.getSurface] at hfail
    cases ob with
    | none =>
      simp [requestSchemaRun, effectiveMap, runValidations, hfail,
        Snapshot.ofReq, normalizedBefore, Surface.idx, Surface.name]
    | some sb =>
      have hsb := hB sb rfl
      simp [requestSchemaRun, effectiveMap, runValidations, hsb, hfail,
        Req.setSurface, Snapshot.ofReq, normalizedBefore, Surface.idx,
        Surface.name]
  | params =>
    have e1 : ob2 = ob := hagree .body (by decide)
    have e2 : oq2 = oq := hagree .query (by decide)
    have e3 : opr2 = opr := hagree .params (by decide)
    rw [e1, e2, e3]
    have hB : ∀ s, ob = some s →
        s.safeParse (b.getD vempty) = .success (norm .body) :=
      fun s hs => hbefore .body (by decide) s hs
    have hQ : ∀ s, oq = some s →
        s.safeParse (q.getD vempty) = .success (norm .query) :=
      fun s hs => hbefore .query (by decide) s hs
    simp only [SchemaMap.get] at hS
    subst hS
    simp only [Req.getSurface] at hfail
    cases ob <;> cases oq
    all_goals try have hsb := hB _ rfl
    all_goals try have hsq := hQ _ rfl
    all_goals
      simp [requestSchemaRun, effectiveMap, runValidations, hfail,
        Req.setSurface, Snapshot.ofReq, normalizedBefore, Surface.idx,
        Surface.name, *]
  | headers =>
    have e1 : ob2 = ob := hagree .body (by decide)
    have e2 : oq2 = oq := hagree .query (by decide)
    have e3 : opr2 = opr := hagree .params (by decide)
    have e4 : oh2 = oh := hagree .headers (by decide)
    rw [e1, e2, e3, e4]
    have hB : ∀ s, ob = some s →
        s.safeParse (b.getD vempty) = .success (norm .body) :=
      fun s hs => hbefore .body (by decide) s hs
    have hQ : ∀ s, oq = some s →
        s.safeParse (q.getD vempty) = .success (norm .query) :=
      fun s hs => hbefore .query (by decide) s hs
    have hP : ∀ s, opr = some s →
        s.safeParse (pr.getD vempty) = .success (norm .params) :=
      fun s hs => hbefore .params (by decide) s hs
    simp only [SchemaMap.get] at hS
    subst hS
    simp only [Req.getSurface] at hfail
    cases ob <;> cases oq <;> cases opr
    all_goals try have hsb := hB _ rfl
    all_goals try have hsq := hQ _ rfl
    all_goals try have hsp := hP _ rfl
    all_goals
      simp [requestSchemaRun, effectiveMap, runValidations, hfail,
        Req.setSurface, Snapshot.ofReq, normalizedBefore, Surface.idx,
        Surface.name, *]

/-- C2 (amended): when surface `S` is the first, in the fixed order body,
query, params, headers, whose bound schema fails, the Schema Normalizer
raises exactly one Validation Failure whose message is `"Validation Error"`,
whose schema is the failing surface's, whose issues are the validator's
issues for `S` each with `S` prepended as the first path segment, and which
carries a snapshot of the four surfaces as they stand on the request at that
moment (surfaces before `S` that had a bound schema appear as the
validator's normalized output, the rest raw, with empty-object defaults for
absent body/query/params and the raw headers); moreover replacing the
schemas bound to surfaces after `S` by anything does not change the result,
i.e. no schema bound to a later surface is evaluated. -/
theorem requestSchema_firstFailure {V : Type} (vempty : V) (m : SchemaMap V)
    (req : Req V) (S : Surface) (sS : Schema V) (iss : List Issue)
    (norm : Surface → V)
    (hbefore : ∀ T : Surface, T.idx < S.idx → ∀ s, m.get T = some s →
      s.safeParse ((req.getSurface T).getD vempty) = .success (norm T))
    (hS : m.get S = some sS)
    (hfail : sS.safeParse ((req.getSurface S).getD vempty) = .failure iss) :
    requestSchemaRun vempty (.map m) req =
      .err ⟨"Validation Error", sS,
        iss.map (fun i => ⟨PathKey.str S.name :: i.path, i.message⟩),
        Snapshot.ofReq vempty (normalizedBefore req m S norm)⟩ ∧
    ∀ mm : SchemaMap V, (∀ T : Surface, T.idx ≤ S.idx → mm.get T = m.get T) →
      requestSchemaRun vempty (.map mm) req =
        .err ⟨"Validation Error", sS,
          iss.map (fun i => ⟨PathKey.str S.name :: i.path, i.message⟩),
          Snapshot.ofReq vempty (normalizedBefore req m S norm)⟩ := by
  have h := runValidations_firstFail vempty m req S sS iss norm hbefore hS hfail
  exact ⟨h m (fun T _ => rfl), h⟩

/-- C2 witness: a concrete run in which the body schema succeeds (coercing 2
to 12) and the query schema fails; the failure carries the fixed message,
the query schema, the issues with `query` prepended, and the snapshot with
the normalized body. -/
theorem requestSchema_firstFailure_witness :
    requestSchemaRun 0 (.map c2m) c2wreq =
      .err ⟨"Validation Error", exSchemaFailQ,
        [⟨[PathKey.str "query", PathKey.str "q"], "bad"⟩],
        ⟨12, 5, 0, none⟩⟩ :=
  (requestSchema_firstFailure 0 c2m c2wreq .query exSchemaFailQ
    [⟨[PathKey.str "q"], "bad"⟩] (fun _ => 12)
    (by
      intro T hT s hs
      cases T with
      | body =>
        simp only [c2m, SchemaMap.get, Option.some.injEq] at hs
        subst hs
        rfl
      | query => exact absurd hT (by decide)
      | params => exact absurd hT (by decide)
      | headers => exact absurd hT (by decide))
    rfl rfl).1

/-- C2 counterexample: the claim's snapshot of "raw request surfaces" is
refuted — with a coercing body schema and a failing query schema the
snapshot's body is the normalized value 11, not the raw body 1 of the
incoming request. -/
theorem requestSchema_rawSnapshot_counterexample :
    requestSchemaRun 0 (.map c2m) c2req =
      .err ⟨"Validation Error", exSchemaFailQ,
        [⟨[PathKey.str "query", PathKey.str "q"], "bad"⟩],
        ⟨11, 5, 0, none⟩⟩ ∧
    (⟨11, 5, 0, none⟩ : Snapshot Nat) ≠ Snapshot.ofReq 0 c2req := by
  exact ⟨rfl, by decide⟩

/-- C9 (amended): the Schema Normalizer performs exactly one change to each
issue produced by the validator — it prepends the failing surface's name to
the issue's path when the Validation Failure is constructed; the message is
never changed, and from the Failure's construction to its consumption by the
Error Responder neither the paths nor the messages change. -/
theorem issuePath_singleMutation {V : Type} (vempty : V) (m : SchemaMap V)
    (req : Req V) (S : Surface) (sS : Schema V) (iss : List Issue)
    (norm : Surface → V)
    (hbefore : ∀ T : Surface, T.idx < S.idx → ∀ s, m.get T = some s →
      s.safeParse ((req.getSurface T).getD vempty) = .success (norm T))
    (hS : m.get S = some sS)
    (hfail : sS.safeParse ((req.getSurface S).getD vempty) = .failure iss) :
    requestSchemaRun vempty (.map m) req =
      .err ⟨"Validation Error", sS,
        iss.map (fun i => ⟨PathKey.str S.name :: i.path, i.message⟩),
        Snapshot.ofReq vempty (normalizedBefore req m S norm)⟩ ∧
    (iss.map (fun i => (⟨PathKey.str S.name :: i.path, i.message⟩ : Issue))).map
        Issue.message = iss.map Issue.message ∧
    (iss.map (fun i => (⟨PathKey.str S.name :: i.path, i.message⟩ : Issue))).map
        Issue.path = iss.map (fun i => PathKey.str S.name :: i.path) ∧
    ∀ e : VSE V, vseHandler (.vse e) =
      .respond 400
        ⟨true, ⟨e.message, e.request,
          e.issues.map (fun i => ⟨joinDot i.path, i.message⟩)⟩⟩ := by
  refine ⟨runValidations_firstFail vempty m req S sS iss norm hbefore hS hfail
      m (fun T _ => rfl), ?_, ?_, fun e => rfl⟩
  · simp [List.map_map]
  · simp [List.map_map]

/-- C9 witness: a concrete run whose body schema fails; the raised failure
holds the validator's single issue with `body` prepended and the message
untouched. -/
theorem issuePath_singleMutation_witness :
    requestSchemaRun 0 (.map c9m) c9req =
      .err ⟨"Validation Error", exSchemaFailUser,
        [⟨[PathKey.str "body", PathKey.str "username"], "Required"⟩],
        ⟨5, 0, 0, none⟩⟩ :=
  (issuePath_singleMutation 0 c9m c9req .body exSchemaFailUser
    [⟨[PathKey.str "username"], "Required"⟩] (fun _ => 0)
    (fun T hT => absurd hT (by cases T <;> decide))
    rfl rfl).1

/-- C9 counterexample: the claim that no operation of the core changes an
issue's path between the validator and the Error Responder is refuted — the
validator produced the path `["username"]`, but the failure delivered to the
responder holds `["body", "username"]`. -/
theorem issueImmutability_counterexample :
    requestSchemaRun 0 (.map c9m) c9req =
      .err ⟨"Validation Error", exSchemaFailUser,
        [⟨[PathKey.str "body", PathKey.str "username"], "Required"⟩],
        ⟨5, 0, 0, none⟩⟩ ∧
    ([⟨[PathKey.str "body", PathKey.str "username"], "Required"⟩] : List Issue) ≠
      [⟨[PathKey.str "username"], "Required"⟩] := by
  exact ⟨rfl, by decide⟩

/-- C5: for every verb registration, non-function entries of the handler
list become a Schema Normalizer middleware and function entries are wrapped
so that a raised error (synchronous throw or asynchronous rejection) is
forwarded to the error-handling stage via `next(error)` and never escapes;
the chain mounted for a route is the group's inherited middleware chain
followed by the normalized schema/handler list, and every path of a path
list is registered with this identical chain. -/
theorem verbRegistration_chain {V H R E : Type} (st : GroupSt V H)
    (verb : Verb) (paths : List String)
    (handlers : List (RouteEntry V H)) :
    ((registerRoute st verb paths handlers).head = st.head ∧
     (registerRoute st verb paths handlers).middlewares = st.middlewares ∧
     (registerRoute st verb paths handlers).routes = st.routes ++
       paths.map (fun p =>
         ⟨verb, posixJoin [st.head, p],
           st.middlewares.map Mounted.plain ++ handlers.map (fun e =>
             match e with
             | .schema s => Mounted.schemaMw s
             | .handler f => Mounted.wrapped f)⟩)) ∧
    (∀ (hf : R → HandlerOut E) (r : R) (e : E),
      hf r = .raise e → handleRequest hf r = .nextErr e) ∧
    (∀ (hf : R → HandlerOut E) (r : R) (e : E),
      handleRequest hf r ≠ .raise e) := by
  have hmap : equalizeHandlers handlers = handlers.map (fun e =>
      match e with
      | RouteEntry.schema s => Mounted.schemaMw s
      | RouteEntry.handler f => Mounted.wrapped f) := by
    unfold equalizeHandlers
    congr 1
  refine ⟨⟨rfl, rfl, ?_⟩, ?_, ?_⟩
  · simp [registerRoute, hmap, normalizeRoute]
  · intro hf r e h
    simp [handleRequest, h]
  · intro hf r e h
    cases ho : hf r <;> simp [handleRequest, ho] at h

/-- C5 witness: a handler that raises is executed by its wrapper as a
`next(error)` call carrying the same error. -/
theorem verbRegistration_chain_witness : handleRequest c5hf 0 = .nextErr 7 :=
  (@verbRegistration_chain Nat Nat Nat Nat
    ⟨"/", [], []⟩ Verb.get [] []).2.1 c5hf 0 7 rfl

/-- Helper: folding single-path registrations over a call list keeps the
head and middleware chain and appends one route per call, each mounted under
the group's head and inherited middleware chain. -/
theorem foldRegister_spec {V H : Type} (calls : List (RepoCall V H))
    (st : GroupSt V H) :
    ((calls.foldl (fun s c => registerRoute s c.verb [c.path] c.args) st).head
        = st.head) ∧
    ((calls.foldl (fun s c => registerRoute s c.verb [c.path] c.args)
        st).middlewares = st.middlewares) ∧
    ((calls.foldl (fun s c => registerRoute s c.verb [c.path] c.args)
        st).routes =
      st.routes ++ calls.map (fun c =>
        ⟨c.verb, posixJoin [st.head, c.path],
          st.middlewares.map Mounted.plain ++ equalizeHandlers c.args⟩)) := by
  induction calls generalizing st with
  | nil => simp
  | cons c rest ih =>
    obtain ⟨h1, h2, h3⟩ := ih (registerRoute st c.verb [c.path] c.args)
    refine ⟨?_, ?_, ?_⟩
    · rw [List.foldl_cons, h1]
      rfl
    · rw [List.foldl_cons, h2]
      rfl
    · rw [List.foldl_cons, h3]
      simp [registerRoute, normalizeRoute]

/-- C4: the repository registration derives, for exactly those of the six
operation names that the instance exposes, the delegation given by the fixed
verb/path table (create→POST base, list→GET base, get→GET base/:id,
update→PUT base/:id, patch→PATCH base/:id, delete→DELETE base/:id), with
handler list `[schema (if any), ...middlewares (if any), bound method]`
after filtering absent entries, where base is the explicit path argument,
else the class metadata's pathName, else the class name with the
`"Repository"` suffix stripped, and id is the class metadata's idParam, else
`"id"`; each delegation registers exactly one route through the verb
methods. -/
theorem repository_registration_table {V H : Type} (st : GroupSt V H)
    (repo : RepoInstance V H) (classMeta : ClassMeta)
    (methodMeta : OpName → MethodMeta V H) (pathArg : Option String) :
    (repositoryCalls repo classMeta methodMeta pathArg =
      (let base := pathArg.getD
        (classMeta.pathName.getD (stripRepositorySuffix repo.className))
       let idp := classMeta.idParam.getD "id"
       ([(OpName.create, Verb.post, base),
         (OpName.list, Verb.get, base),
         (OpName.get, Verb.get, base ++ "/:" ++ idp),
         (OpName.update, Verb.put, base ++ "/:" ++ idp),
         (OpName.patch, Verb.patch, base ++ "/:" ++ idp),
         (OpName.delete, Verb.delete, base ++ "/:" ++ idp)] :
           List (OpName × Verb × String)).filterMap (fun t =>
         (repo.method t.1).map (fun fn =>
           ⟨t.2.1, t.2.2,
             (match (methodMeta t.1).schema with
              | some s => [RouteEntry.schema s]
              | none => []) ++
             ((methodMeta t.1).middleware.getD []).map RouteEntry.handler ++
             [RouteEntry.handler fn]⟩)))) ∧
    (repositoryRegister st repo classMeta methodMeta pathArg).head = st.head ∧
    (repositoryRegister st repo classMeta methodMeta pathArg).middlewares =
      st.middlewares ∧
    (repositoryRegister st repo classMeta methodMeta pathArg).routes =
      st.routes ++ (repositoryCalls repo classMeta methodMeta pathArg).map
        (fun c => ⟨c.verb, posixJoin [st.head, c.path],
          st.middlewares.map Mounted.plain ++ equalizeHandlers c.args⟩) := by
  obtain ⟨cn, oc, ol, og, ou, opa, od⟩ := repo
  refine ⟨?_, ?_, ?_, ?_⟩
  · cases oc <;> cases ol <;> cases og <;> cases ou <;> cases opa <;>
      cases od <;> rfl
  · exact (foldRegister_spec _ st).1
  · exact (foldRegister_spec _ st).2.1
  · exact (foldRegister_spec _ st).2.2

/-- C6 (amended): prefix composition is POSIX path joining — the child
group's head is the POSIX join of the parent's head and the supplied
segment, every registered route's final path is the POSIX join of the group
head and the route path, and a root-based group at `v1` containing a nested
group at `admin` has prefix `/v1/admin` regardless of whether each segment
carries a leading separator; a trailing separator on a segment, however, is
preserved at the end of the resulting prefix (`admin/` yields
`/v1/admin/`). -/
theorem prefixComposition_posixJoin {H : Type} :
    (∀ (h : MwHeap H) (st : ProviderSt) (args : GroupArgsV H),
      ((groupChild h st args).2).head = posixJoin [st.head, argsPath args]) ∧
    (∀ (V : Type) (st : GroupSt V H) (verb : Verb) (paths : List String)
        (handlers : List (RouteEntry V H)),
      (registerRoute st verb paths handlers).routes.map Registration.path =
        st.routes.map Registration.path ++
          paths.map (fun p => posixJoin [st.head, p])) ∧
    posixJoin [posixJoin ["/", "v1"], "admin"] = "/v1/admin" ∧
    posixJoin [posixJoin ["/", "/v1"], "admin"] = "/v1/admin" ∧
    posixJoin [posixJoin ["/", "v1"], "/admin"] = "/v1/admin" ∧
    posixJoin [posixJoin ["/", "/v1"], "/admin"] = "/v1/admin" ∧
    posixJoin [posixJoin ["/", "v1/"], "admin"] = "/v1/admin" ∧
    posixJoin [posixJoin ["/", "v1"], "admin/"] = "/v1/admin/" := by
  refine ⟨fun h st args => rfl, ?_, by decide, by decide, by decide,
    by decide, by decide, by decide⟩
  intro V st verb paths handlers
  simp [registerRoute, normalizeRoute]

/-- C6 counterexample: the claim that the prefix is `/v1/admin` regardless
of trailing separators is refuted — a root-based group at `v1` containing a
nested group at `admin/` has prefix `/v1/admin/`, which differs from
`/v1/admin`. -/
theorem prefixComposition_trailing_counterexample :
    ((groupChild (groupChild exHeapU exRootU (GroupArgsV.pathCb "v1")).1
        ((groupChild exHeapU exRootU (GroupArgsV.pathCb "v1")).2)
        (GroupArgsV.pathCb "admin/")).2).head = "/v1/admin/" ∧
    ("/v1/admin/" : String) ≠ "/v1/admin" := by
  exact ⟨by decide, by decide⟩

/-- Helper: one engine heap mutation allocates only fresh references, so it
preserves the contents behind every previously valid reference. -/
theorem engineStep_frame {H : Type} {h1 h2 : MwHeap H}
    (hs : EngineStep h1 h2) :
    h1.next ≤ h2.next ∧ ∀ r, r < h1.next → heapGet h2 r = heapGet h1 r := by
  obtain ⟨st, args, hv, rfl⟩ := hs
  constructor
  · exact Nat.le_succ _
  · intro r hr
    have hne : r ≠ h1.next := Nat.ne_of_lt hr
    simp [heapGet, groupChild, parseGroupArgs, heapAlloc, hne]

/-- Helper: a sequence of engine heap mutations preserves the contents
behind every reference that was valid before the sequence started. -/
theorem engineReach_frame {H : Type} {h1 h2 : MwHeap H}
    (hr : EngineReach h1 h2) :
    h1.next ≤ h2.next ∧ ∀ r, r < h1.next → heapGet h2 r = heapGet h1 r := by
  induction hr with
  | refl h => exact ⟨Nat.le_refl _, fun _ _ => rfl⟩
  | step hs htail ih =>
    obtain ⟨hn1, hg1⟩ := engineStep_frame hs
    obtain ⟨hn2, hg2⟩ := ih
    exact ⟨Nat.le_trans hn1 hn2, fun r hrlt =>
      (hg2 r (Nat.lt_of_lt_of_le hrlt hn1)).trans (hg1 r hrlt)⟩

/-- C10: `group` never mutates the parent engine instance — the child
receives a fresh reference (distinct from the parent's) holding a copy of
the parent's middleware chain with at most one middleware appended, and a
newly computed prefix; the parent's chain is unchanged, and after any
sequence of engine operations performed from the child heap (e.g. by the
group callback, including sibling groups), the chain behind every reference
valid before the call — the parent's and every sibling's — is exactly as
before. -/
theorem group_frame {H : Type} (h : MwHeap H) (st : ProviderSt)
    (args : GroupArgsV H) (hv : st.mwRef < h.next) :
    ((groupChild h st args).2).mwRef = h.next ∧
    ((groupChild h st args).2).mwRef ≠ st.mwRef ∧
    heapGet (groupChild h st args).1 st.mwRef = heapGet h st.mwRef ∧
    heapGet (groupChild h st args).1 ((groupChild h st args).2).mwRef =
      heapGet h st.mwRef ++
        (match argsMw args with
         | some m => [m]
         | none => []) ∧
    ((groupChild h st args).2).head = posixJoin [st.head, argsPath args] ∧
    ∀ h2, EngineReach (groupChild h st args).1 h2 →
      ∀ r, r < h.next → heapGet h2 r = heapGet h r := by
  refine ⟨rfl, Ne.symm (Nat.ne_of_lt hv), ?_, ?_, rfl, ?_⟩
  · have hne : st.mwRef ≠ h.next := Nat.ne_of_lt hv
    simp [heapGet, groupChild, parseGroupArgs, heapAlloc, hne]
  · simp [heapGet, groupChild, parseGroupArgs, heapAlloc]
  · intro h2 hreach r hrlt
    exact (engineReach_frame
      (EngineReach.step ⟨st, args, hv, rfl⟩ hreach)).2 r hrlt

/-- C10 witness: a concrete group call on a root provider allocates a fresh
chain equal to the parent's (empty) chain with the supplied middleware
appended. -/
theorem group_frame_witness :
    heapGet (groupChild exHeapN exRootN (GroupArgsV.pathMwCb "v1" 5)).1
        ((groupChild exHeapN exRootN (GroupArgsV.pathMwCb "v1" 5)).2).mwRef =
      heapGet exHeapN 0 ++ [5] :=
  (group_frame exHeapN exRootN (GroupArgsV.pathMwCb "v1" 5)
    (by decide)).2.2.2.1

end GatEX
